import Mathlib

/-!
Shallow embedding of the result-aggregation core of the unified-search
repository: the `SearchEngine.execute` wrapper (src/engines/base.ts) and the
`SearchAggregator` (src/aggregator.ts).  JavaScript numbers that only ever
hold small integral values are modelled as `Int`/`Nat`; optional TS fields
become `Option`; JS truthiness of `string | undefined` and `number |
undefined` fields is modelled explicitly at each use site.
-/

namespace USearch

/-- A raw/canonical search result (TS interface SearchResult): title, url,
snippet, source (provider attribution), optional publishedDate, optional
provider-native score, optional relevance score added by the aggregator. -/
structure SearchResult where
  title : String
  url : String
  snippet : String
  source : String
  publishedDate : Option String := none
  score : Option Int := none
  relevanceScore : Option Int := none
deriving DecidableEq

/-- One provider's outcome for one request (TS interface EngineResponse). -/
structure EngineResponse where
  engine : String
  results : List SearchResult
  latency : Nat
  error : Option String := none
deriving DecidableEq

/-- A value thrown by a provider adapter: either an Error object carrying a
message, or any non-Error value. -/
inductive Thrown where
  | errObj (msg : String)
  | nonError
deriving DecidableEq

/-- The message text the executor's catch block extracts from a thrown value:
`error instanceof Error ? error.message : 'Unknown error'`. -/
def thrownMessage : Thrown → String
  | .errObj m => m
  | .nonError => "Unknown error"

/-- How a provider adapter's `search` promise behaves relative to the
executor's timeout race: it settles first with results, settles first by
raising/rejecting, or does not settle before the timer fires. -/
inductive SearchOutcome where
  | ok (results : List SearchResult)
  | thrown (e : Thrown)
  | hang
deriving DecidableEq

/-- `SearchEngine.execute` (src/engines/base.ts lines 20–51): races the
adapter against a timer; on success overwrites every result's `source` with
the engine name; on a caught raise/reject returns empty results and the
thrown message; when the timer wins, the synthesized rejection message is
`Timeout after <ms>ms`.  The function is total: no outcome raises. -/
def SearchEngine.execute (name : String) (timeoutMs : Nat)
    (outcome : SearchOutcome) (elapsed : Nat) : EngineResponse :=
  match outcome with
  | .ok rs =>
      { engine := name
        results := rs.map (fun r => { r with source := name })
        latency := elapsed }
  | .thrown e =>
      { engine := name
        results := []
        error := some (thrownMessage e)
        latency := elapsed }
  | .hang =>
      { engine := name
        results := []
        error := some ("Timeout after " ++ toString timeoutMs ++ "ms")
        latency := elapsed }

/-! ### Tokenization (src/aggregator.ts `tokenize`, lines 146–152) -/

/-- JS regex `\w`: ASCII letters, digits, underscore. -/
def jsIsWordChar (c : Char) : Bool :=
  let n := c.toNat
  decide ((97 ≤ n ∧ n ≤ 122) ∨ (65 ≤ n ∧ n ≤ 90) ∨ (48 ≤ n ∧ n ≤ 57) ∨ n = 95)

/-- JS regex `\s`: the ECMAScript white-space and line-terminator set. -/
def jsIsSpace (c : Char) : Bool :=
  let n := c.toNat
  decide (n = 32 ∨ (9 ≤ n ∧ n ≤ 13) ∨ n = 0xa0 ∨ n = 0x1680 ∨
    (0x2000 ≤ n ∧ n ≤ 0x200a) ∨ n = 0x2028 ∨ n = 0x2029 ∨ n = 0x202f ∨
    n = 0x205f ∨ n = 0x3000 ∨ n = 0xfeff)

/-- The CJK unified-ideograph range `一`–`鿿` kept by the tokenizer. -/
def isCJK (c : Char) : Bool :=
  decide (0x4e00 ≤ c.toNat ∧ c.toNat ≤ 0x9fff)

/-- Split a character list on maximal runs of JS whitespace, dropping empty
chunks.  (JS `split(/\s+/)` can yield one leading empty string; the
tokenizer's `length > 1` filter discards it, so the two agree after the
filter.) -/
def splitWsAux : List Char → List Char → List (List Char)
  | [], acc => if acc.isEmpty then [] else [acc.reverse]
  | c :: cs, acc =>
    if jsIsSpace c then
      if acc.isEmpty then splitWsAux cs [] else acc.reverse :: splitWsAux cs []
    else
      splitWsAux cs (c :: acc)

/-- Per-character lower-casing, modelling JS `toLowerCase` on the ASCII range
the scoring rules exercise. -/
def strLower (s : String) : String :=
  String.mk (s.data.map Char.toLower)

/-- `tokenize` (src/aggregator.ts lines 146–152): lower-case, replace every
character that is not a word character, whitespace, or a CJK ideograph with a
space, split on whitespace, keep only tokens of length > 1. -/
def tokenize (text : String) : List String :=
  let replaced := (text.data.map Char.toLower).map
    (fun c => if jsIsWordChar c || jsIsSpace c || isCJK c then c else ' ')
  ((splitWsAux replaced []).map (fun cs => String.mk cs)).filter
    (fun t => t.length > 1)

/-- JS `haystack.includes(needle)` on strings: substring containment. -/
def jsIncludes (hay needle : String) : Bool :=
  decide (needle.data <:+: hay.data)

/-- JS `String.prototype.split(sep)` for a one-character separator: keeps
empty chunks, and the empty string splits to one empty chunk. -/
def splitOnChar (sep : Char) : List Char → List (List Char)
  | [] => [[]]
  | c :: cs =>
    if c = sep then [] :: splitOnChar sep cs
    else
      match splitOnChar sep cs with
      | [] => [[c]]
      | t :: ts => (c :: t) :: ts

/-! ### URL normalization (src/aggregator.ts `normalizeUrl`, lines 72–82) -/

/-- The components of a successfully parsed absolute URL that the WHATWG
`URL` constructor exposes and `normalizeUrl` consumes or discards:
`hostname` (no port), `pathname`, plus the discarded scheme, port, query and
fragment. -/
structure URLRecord where
  scheme : String
  host : String
  port : Option Nat := none
  path : String
  query : Option String := none
  fragment : Option String := none
deriving DecidableEq

/-- The environment's URL parser (`new URL(...)`), abstracted: `none` models
the constructor throwing on an unparsable string. -/
def ParseURL : Type := String → Option URLRecord

/-- JS `hostname.replace(/^www\./, '')`: drop one literal leading `www.`. -/
def dropWww (h : String) : String :=
  if "www.".data.isPrefixOf h.data then String.mk (h.data.drop 4) else h

/-- JS `s.replace(/\/$/, '')`: drop one trailing slash if present. -/
def stripTrailingSlash (s : String) : String :=
  if s.data.getLast? = some '/' then String.mk s.data.dropLast else s

/-- `normalizeUrl` (src/aggregator.ts lines 72–82): on a successful parse,
`hostname` minus a leading `www.`, concatenated with `pathname`, minus one
trailing slash, lower-cased; on a parse failure, the original string
lower-cased. -/
def normalizeUrl (parse : ParseURL) (url : String) : String :=
  match parse url with
  | some p => strLower (stripTrailingSlash (dropWww p.host ++ p.path))
  | none => strLower url

/-! ### Merge and deduplication (src/aggregator.ts lines 54–93) -/

/-- JS `a || b` on `string | undefined`: `a` unless it is undefined or the
empty string. -/
def jsOrStr : Option String → Option String → Option String
  | some a, b => if a = "" then b else some a
  | none, b => b

/-- JS `x || 0` on `number | undefined`. -/
def jsNumOr0 : Option Int → Int
  | some a => a
  | none => 0

/-- `mergeResults` (src/aggregator.ts lines 84–93): longer title, first URL,
longer snippet, `+`-joined sources, first truthy publishedDate, max of the
(defaulted) native scores.  The constructed object carries no
relevanceScore. -/
def mergeResults (a b : SearchResult) : SearchResult :=
  { title := if b.title.length ≤ a.title.length then a.title else b.title
    url := a.url
    snippet := if b.snippet.length ≤ a.snippet.length then a.snippet else b.snippet
    source := a.source ++ "+" ++ b.source
    publishedDate := jsOrStr a.publishedDate b.publishedDate
    score := some (max (jsNumOr0 a.score) (jsNumOr0 b.score))
    relevanceScore := none }

/-- First value stored under key `k` in an insertion-ordered association
list (the JS `Map` model). -/
def findEntry (k : String) : List (String × SearchResult) → Option SearchResult
  | [] => none
  | e :: es => if e.1 = k then some e.2 else findEntry k es

/-- JS `Map.set` on an existing key: replace the value in place, keeping the
entry's position. -/
def updateEntry (k : String) (r : SearchResult) :
    List (String × SearchResult) → List (String × SearchResult)
  | [] => []
  | e :: es => if e.1 = k then (k, mergeResults e.2 r) :: es else e :: updateEntry k r es

/-- One iteration of the dedup loop (src/aggregator.ts lines 57–67): a fresh
key appends a new entry; an existing key merges the incoming result into the
stored one. -/
def dedupInsert (parse : ParseURL) (acc : List (String × SearchResult))
    (r : SearchResult) : List (String × SearchResult) :=
  match findEntry (normalizeUrl parse r.url) acc with
  | some _ => updateEntry (normalizeUrl parse r.url) r acc
  | none => acc ++ [(normalizeUrl parse r.url, r)]

/-- The full insertion-ordered map built by `deduplicateByUrl`. -/
def dedupEntries (parse : ParseURL) (results : List SearchResult) :
    List (String × SearchResult) :=
  results.foldl (dedupInsert parse) []

/-- `deduplicateByUrl` (src/aggregator.ts lines 54–70): the map's values in
insertion order. -/
def deduplicateByUrl (parse : ParseURL) (results : List SearchResult) :
    List SearchResult :=
  (dedupEntries parse results).map (fun e => e.2)

/-! ### Relevance scoring (src/aggregator.ts lines 95–144) -/

/-- The token-match part of the score (the `for (const term of queryTerms)`
loop, lines 105–112): +10 per query token found among the title's tokens and
+3 per query token found among the snippet's tokens — tokens taken from the
query list as iterated, i.e. with multiplicity. -/
def tokenScoreOf (query : String) (r : SearchResult) : Int :=
  ((tokenize query).map (fun t =>
    (if (tokenize r.title).contains t then (10 : Int) else 0) +
    (if (tokenize r.snippet).contains t then (3 : Int) else 0))).sum

/-- Lines 114–117: +20 when the lower-cased title contains the lower-cased
full query as a substring. -/
def exactBonusOf (query : String) (r : SearchResult) : Int :=
  if jsIncludes (strLower r.title) (strLower query) then 20 else 0

/-- Lines 119–122: when the source contains `'+'`,
+15 × (`source.split('+').length` − 1). -/
def multiBonusOf (r : SearchResult) : Int :=
  if r.source.data.contains '+' then
    15 * (((splitOnChar '+' r.source.data).length : Int) - 1)
  else 0

/-- Lines 124–127: +5× the provider-native score when it is truthy. -/
def nativeBonusOf (r : SearchResult) : Int :=
  match r.score with
  | some s => if s = 0 then 0 else s * 5
  | none => 0

/-- Lines 129–132: +3 when a truthy publishedDate is present. -/
def dateBonusOf (r : SearchResult) : Int :=
  match r.publishedDate with
  | some d => if d = "" then 0 else 3
  | none => 0

/-- Lines 134–137: +5 when the snippet is longer than 100 characters. -/
def snippetBonusOf (r : SearchResult) : Int :=
  if r.snippet.length > 100 then 5 else 0

/-- The per-result relevance score computed inside `calculateRelevance`
(src/aggregator.ts lines 98–142): the sequential `score += …` accumulation,
written as the sum of its six contributions. -/
def scoreOf (query : String) (r : SearchResult) : Int :=
  tokenScoreOf query r + exactBonusOf query r + multiBonusOf r +
    nativeBonusOf r + dateBonusOf r + snippetBonusOf r

/-- `calculateRelevance` (src/aggregator.ts lines 95–144): attach `scoreOf`
to every result. -/
def calculateRelevance (results : List SearchResult) (query : String) :
    List SearchResult :=
  results.map (fun r => { r with relevanceScore := some (scoreOf query r) })

/-! ### Statistics, ranking, aggregate (src/aggregator.ts lines 14–52) -/

/-- Per-provider status in the statistics block. -/
inductive Status where
  | success
  | error
  | timeout
deriving DecidableEq

/-- The status branch of src/aggregator.ts lines 24–26: JS truthiness of
`r.error` (undefined and the empty string are falsy), then
`r.error.includes('Timeout')`. -/
def statusOf (error : Option String) : Status :=
  match error with
  | some e => if e = "" then .success else (if jsIncludes e "Timeout" then .timeout else .error)
  | none => .success

/-- One entry of the per-provider statistics block. -/
structure EngineStat where
  name : String
  count : Nat
  latency : Nat
  status : Status
  error : Option String
deriving DecidableEq

/-- The statistics record built for one response (src/aggregator.ts lines
20–28). -/
def engineStatOf (r : EngineResponse) : EngineStat :=
  { name := r.engine
    count := r.results.length
    latency := r.latency
    status := statusOf r.error
    error := r.error }

/-- The aggregator's output (TS AggregatedResponse), minus the wall-clock
`processedAt` timestamp. -/
structure AggregatedResponse where
  query : String
  totalResults : Nat
  engines : List EngineStat
  results : List SearchResult
deriving DecidableEq

/-- The sort key `b.relevanceScore || 0`. -/
def rScore (r : SearchResult) : Int :=
  jsNumOr0 r.relevanceScore

/-- The JS `sort((a, b) => (b.relevanceScore || 0) - (a.relevanceScore || 0))`:
ECMAScript `Array.prototype.sort` is stable, and with this consistent
comparator its result is the stable descending sort by `rScore`, which
`List.mergeSort` with this `le` computes. -/
def sortByScoreDesc (l : List SearchResult) : List SearchResult :=
  List.mergeSort l (fun a b => decide (rScore b ≤ rScore a))

/-- `SearchAggregator.aggregate` (src/aggregator.ts lines 14–52): collect,
dedupe, score, sort descending, truncate to `maxResults`, and report
per-provider statistics.  `maxResults` is the construction parameter. -/
def SearchAggregator.aggregate (parse : ParseURL) (maxResults : Nat)
    (query : String) (responses : List EngineResponse) : AggregatedResponse :=
  let engineStats := responses.map engineStatOf
  let allResults := (responses.map (fun r => r.results)).flatten
  let uniqueResults := deduplicateByUrl parse allResults
  let scoredResults := calculateRelevance uniqueResults query
  let topResults := (sortByScoreDesc scoredResults).take maxResults
  { query := query
    totalResults := topResults.length
    engines := engineStats
    results := topResults }

/-! ### Auxiliary definitions used by the statements below -/

/-- One step of merging a group of same-key results, as an `Option`-fold:
the first group member seeds the canonical result, later members are merged
in. -/
def mergeStep (o : Option SearchResult) (r : SearchResult) : Option SearchResult :=
  some (match o with | some e => mergeResults e r | none => r)

/-- `+`-separated join of a list of provider names. -/
def plusJoin : List String → String
  | [] => ""
  | s :: ss => ss.foldl (fun acc t => acc ++ "+" ++ t) s

/-- Modelled from the spec for a refinement comparison: the token and
substring components of the relevance score as the spec's words state them —
each DISTINCT query token contributes once (+10 if among the title's tokens,
+3 if among the snippet's tokens), plus the +20 full-query substring
bonus. -/
def specDistinctTokenScore (query title snippet : String) : Int :=
  (((tokenize query).dedup).map (fun t =>
    (if (tokenize title).contains t then (10 : Int) else 0) +
    (if (tokenize snippet).contains t then (3 : Int) else 0))).sum +
  (if jsIncludes (strLower title) (strLower query) then 20 else 0)

/-! ## Theorems -/

theorem data_timeout_after : ("Timeout after ").data = "Timeout".data ++ " after ".data := by
  decide

theorem jsIncludes_timeout_msg (timeoutMs : Nat) :
    jsIncludes ("Timeout after " ++ toString timeoutMs ++ "ms") "Timeout" = true := by
  unfold jsIncludes
  simp only [decide_eq_true_eq]
  refine ⟨[], (" after " ++ toString timeoutMs ++ "ms").data, ?_⟩
  simp [String.data_append, data_timeout_after]

theorem timeout_msg_ne_empty (timeoutMs : Nat) :
    ("Timeout after " ++ toString timeoutMs ++ "ms") ≠ "" := by
  intro h
  have h2 : jsIncludes "" "Timeout" = true := h ▸ jsIncludes_timeout_msg timeoutMs
  exact absurd h2 (by decide)

/-- C1: for every provider adapter outcome that is a synchronous raise, an
asynchronous rejection, or a hang past the timeout, `execute` still produces
a well-formed response (the model function is total, so nothing propagates)
whose results list is empty and whose error field is set. -/
theorem execute_never_raises (name : String) (timeoutMs elapsed : Nat)
    (outcome : SearchOutcome) (h : ∀ rs, outcome ≠ SearchOutcome.ok rs) :
    (SearchEngine.execute name timeoutMs outcome elapsed).results = [] ∧
    (SearchEngine.execute name timeoutMs outcome elapsed).error ≠ none := by
  cases outcome with
  | ok rs => exact absurd rfl (h rs)
  | thrown e => exact ⟨rfl, by simp [SearchEngine.execute]⟩
  | hang => exact ⟨rfl, by simp [SearchEngine.execute]⟩

theorem execute_never_raises_witness :
    (SearchEngine.execute "Exa" 8000 SearchOutcome.hang 8000).results = [] ∧
    (SearchEngine.execute "Exa" 8000 SearchOutcome.hang 8000).error ≠ none :=
  execute_never_raises "Exa" 8000 8000 SearchOutcome.hang (fun _ h => nomatch h)

/-- C2: for every maximum result count, query and response list, the
aggregated result list has length at most the maximum. -/
theorem aggregate_length_le (parse : ParseURL) (maxResults : Nat) (query : String)
    (responses : List EngineResponse) :
    (SearchAggregator.aggregate parse maxResults query responses).results.length ≤
      maxResults := by
  simp only [SearchAggregator.aggregate]
  exact List.length_take_le maxResults _

/-- C10: an adapter rejection whose Error message is the empty string yields
a response with empty results and an empty-string error, and the aggregator's
status branch keys on truthiness, so it is classified as a success with zero
results. -/
theorem empty_error_reported_success (name : String) (timeoutMs elapsed : Nat) :
    ((SearchEngine.execute name timeoutMs (SearchOutcome.thrown (Thrown.errObj "")) elapsed).results = [])
    ∧ ((SearchEngine.execute name timeoutMs (SearchOutcome.thrown (Thrown.errObj "")) elapsed).error = some "")
    ∧ (∀ r : EngineResponse, r.error = some "" → (engineStatOf r).status = Status.success)
    ∧ (∀ parse N q,
        ((SearchAggregator.aggregate parse N q
            [SearchEngine.execute name timeoutMs (SearchOutcome.thrown (Thrown.errObj "")) elapsed]).engines.map
          (fun s => s.status)) = [Status.success]
        ∧ ((SearchAggregator.aggregate parse N q
            [SearchEngine.execute name timeoutMs (SearchOutcome.thrown (Thrown.errObj "")) elapsed]).engines.map
          (fun s => s.count)) = [0]) := by
  refine ⟨rfl, rfl, ?_, ?_⟩
  · intro r hr
    simp [engineStatOf, statusOf, hr]
  · intro parse N q
    constructor <;>
      simp [SearchAggregator.aggregate, engineStatOf, statusOf, SearchEngine.execute,
        thrownMessage]

theorem empty_error_reported_success_witness :
    (engineStatOf { engine := "Exa", results := [], latency := 3, error := some "" }).status =
      Status.success :=
  (empty_error_reported_success "Exa" 8000 3).2.2.1 _ rfl

/-- C9: the per-provider statistic has status `timeout` when the error text
contains `Timeout` — in particular for the executor-synthesized
`Timeout after <ms>ms` of a provider that never settles — status `error`
for a different (truthy) error text, and status `success` when no error is
present; and these statistics are exactly what `aggregate` reports. -/
theorem engine_status_taxonomy (r : EngineResponse) (name : String) (timeoutMs elapsed : Nat) :
    ((engineStatOf (SearchEngine.execute name timeoutMs SearchOutcome.hang elapsed)).status =
      Status.timeout)
    ∧ (∀ e, r.error = some e → jsIncludes e "Timeout" = true →
        (engineStatOf r).status = Status.timeout)
    ∧ (∀ e, r.error = some e → e ≠ "" → jsIncludes e "Timeout" = false →
        (engineStatOf r).status = Status.error)
    ∧ (r.error = none → (engineStatOf r).status = Status.success)
    ∧ (∀ parse N q rs, (SearchAggregator.aggregate parse N q rs).engines =
        rs.map engineStatOf) := by
  refine ⟨?_, ?_, ?_, ?_, ?_⟩
  · simp [engineStatOf, SearchEngine.execute, statusOf,
      timeout_msg_ne_empty timeoutMs, jsIncludes_timeout_msg timeoutMs]
  · intro e he hto
    have hne : e ≠ "" := by
      intro h0
      rw [h0] at hto
      exact absurd hto (by decide)
    simp [engineStatOf, statusOf, he, hne, hto]
  · intro e he hne hto
    simp [engineStatOf, statusOf, he, hne, hto]
  · intro he
    simp [engineStatOf, statusOf, he]
  · intro parse N q rs
    rfl

theorem engine_status_taxonomy_witness :
    (engineStatOf { engine := "Tavily", results := [], latency := 120, error := some "network unreachable" }).status = Status.error :=
  (engine_status_taxonomy
      { engine := "Tavily", results := [], latency := 120, error := some "network unreachable" }
      "Tavily" 8000 120).2.2.1
    "network unreachable" rfl (by decide) (by decide)

/-- C7 counterexample: with equal-length but different titles (`"ab"` vs
`"cd"`), the merged title depends on processing order, so the merge of title
and snippet is not commutative as the claim states. -/
theorem merge_tie_order_dependent :
    (mergeResults { title := "ab", url := "u1", snippet := "s", source := "A" }
        { title := "cd", url := "u2", snippet := "s", source := "B" }).title = "ab"
    ∧ (mergeResults { title := "cd", url := "u2", snippet := "s", source := "B" }
        { title := "ab", url := "u1", snippet := "s", source := "A" }).title = "cd"
    ∧ ("ab" : String) ≠ "cd" := by
  refine ⟨rfl, rfl, by decide⟩

/-- C7 amended: when the two titles (resp. snippets) have different lengths,
the merged title (resp. snippet) is the strictly longer one, in either
processing order; on equal lengths the first-processed result's field is
kept, so commutativity holds only off ties. -/
theorem merge_content_longer (a b : SearchResult) :
    (a.title.length ≠ b.title.length →
      (mergeResults a b).title = (mergeResults b a).title)
    ∧ (a.snippet.length ≠ b.snippet.length →
      (mergeResults a b).snippet = (mergeResults b a).snippet)
    ∧ (b.title.length < a.title.length → (mergeResults a b).title = a.title)
    ∧ (a.title.length < b.title.length → (mergeResults a b).title = b.title)
    ∧ (b.snippet.length < a.snippet.length → (mergeResults a b).snippet = a.snippet)
    ∧ (a.snippet.length < b.snippet.length → (mergeResults a b).snippet = b.snippet)
    ∧ (a.title.length = b.title.length → (mergeResults a b).title = a.title)
    ∧ (a.snippet.length = b.snippet.length → (mergeResults a b).snippet = a.snippet) := by
  refine ⟨?_, ?_, ?_, ?_, ?_, ?_, ?_, ?_⟩ <;>
    intro h <;>
    simp only [mergeResults] <;>
    split_ifs <;>
    first | rfl | omega

theorem merge_content_longer_witness :
    (mergeResults { title := "abc", url := "u1", snippet := "s", source := "A" }
        { title := "d", url := "u2", snippet := "s", source := "B" }).title =
      (mergeResults { title := "d", url := "u2", snippet := "s", source := "B" }
        { title := "abc", url := "u1", snippet := "s", source := "A" }).title :=
  (merge_content_longer
      { title := "abc", url := "u1", snippet := "s", source := "A" }
      { title := "d", url := "u2", snippet := "s", source := "B" }).1 (by decide)

/-- C3 counterexample: for the query `"go go"` (token `go` twice) and title
`"go tutorial"`, the code scores the repeated query token twice (total 20),
while the claim's distinct-token formula gives 10; every other score
contribution is zero at this input. -/
theorem score_distinct_counterexample :
    scoreOf "go go" { title := "go tutorial", url := "u", snippet := "", source := "ddg" } = 20
    ∧ specDistinctTokenScore "go go" "go tutorial" "" = 10
    ∧ (20 : Int) ≠ 10 := by
  refine ⟨by decide, by decide, by decide⟩

/-- C3 amended: the tokenization and the weights are as claimed, but each
occurrence of a query token counts — a token appearing several times in the
query contributes once per occurrence, not once in total.  For a result with
no multi-source, native-score, date or long-snippet contribution, the score
is the per-occurrence token sum plus the +20 full-query substring bonus. -/
theorem score_token_formula (q : String) (r : SearchResult)
    (hsrc : r.source.data.contains '+' = false)
    (hscore : r.score = none)
    (hdate : r.publishedDate = none)
    (hsnip : r.snippet.length ≤ 100) :
    scoreOf q r =
      ((tokenize q).map (fun t =>
        (if (tokenize r.title).contains t then (10 : Int) else 0) +
        (if (tokenize r.snippet).contains t then (3 : Int) else 0))).sum +
      (if jsIncludes (strLower r.title) (strLower q) then 20 else 0) := by
  have hsrc' : '+' ∉ r.source.data := by simpa using hsrc
  have h1 : multiBonusOf r = 0 := by simp [multiBonusOf, hsrc']
  have h2 : nativeBonusOf r = 0 := by simp [nativeBonusOf, hscore]
  have h3 : dateBonusOf r = 0 := by simp [dateBonusOf, hdate]
  have h4 : snippetBonusOf r = 0 := by
    simp only [snippetBonusOf]
    rw [if_neg (by omega)]
  simp only [scoreOf, h1, h2, h3, h4, add_zero]
  rfl

theorem score_token_formula_witness :
    scoreOf "rust lang" { title := "The Rust lang book", url := "u", snippet := "intro", source := "Exa" } =
      ((tokenize "rust lang").map (fun t =>
        (if (tokenize "The Rust lang book").contains t then (10 : Int) else 0) +
        (if (tokenize "intro").contains t then (3 : Int) else 0))).sum +
      (if jsIncludes (strLower "The Rust lang book") (strLower "rust lang") then 20 else 0) :=
  score_token_formula "rust lang"
    { title := "The Rust lang book", url := "u", snippet := "intro", source := "Exa" }
    (by decide) rfl rfl (by decide)

theorem splitOnChar_ne_nil (sep : Char) (cs : List Char) : splitOnChar sep cs ≠ [] := by
  induction cs with
  | nil => simp [splitOnChar]
  | cons c cs ih =>
    by_cases h : c = sep
    · simp [splitOnChar, h]
    · simp only [splitOnChar, if_neg h]
      cases hs : splitOnChar sep cs <;> simp

theorem splitOnChar_append (sep : Char) (xs ys : List Char) :
    splitOnChar sep (xs ++ sep :: ys) = splitOnChar sep xs ++ splitOnChar sep ys := by
  induction xs with
  | nil => simp [splitOnChar]
  | cons c cs ih =>
    by_cases h : c = sep
    · simp [splitOnChar, h, ih]
    · cases hs : splitOnChar sep cs with
      | nil => exact absurd hs (splitOnChar_ne_nil sep cs)
      | cons t ts =>
        simp [splitOnChar, h, ih, hs]

theorem splitOnChar_of_not_mem (sep : Char) (cs : List Char) (h : sep ∉ cs) :
    splitOnChar sep cs = [cs] := by
  induction cs with
  | nil => rfl
  | cons c cs ih =>
    simp only [List.mem_cons, not_or] at h
    have h1 : c ≠ sep := fun hc => h.1 hc.symm
    simp [splitOnChar, h1, ih h.2]

/-- C5: merging a same-URL raw result from a second provider — titles,
snippets, published dates and native scores held fixed, neither provider
name containing `'+'` — increases the relevance score by exactly 15. -/
theorem multi_source_bonus (q : String) (a b : SearchResult)
    (ht : b.title = a.title) (hs : b.snippet = a.snippet)
    (hd : b.publishedDate = a.publishedDate) (hn : b.score = a.score)
    (ha : '+' ∉ a.source.data) (hb : '+' ∉ b.source.data) :
    scoreOf q (mergeResults a b) = scoreOf q a + 15 := by
  have hT : (mergeResults a b).title = a.title := by simp [mergeResults, ht]
  have hS : (mergeResults a b).snippet = a.snippet := by simp [mergeResults, hs]
  have hD : (mergeResults a b).publishedDate = jsOrStr a.publishedDate a.publishedDate := by
    simp [mergeResults, hd]
  have hN : (mergeResults a b).score = some (jsNumOr0 a.score) := by
    simp [mergeResults, hn]
  have hplus : ("+" : String).data = ['+'] := rfl
  have hSrc : (mergeResults a b).source.data = a.source.data ++ '+' :: b.source.data := by
    simp [mergeResults, String.data_append, hplus]
  have h1 : tokenScoreOf q (mergeResults a b) = tokenScoreOf q a := by
    unfold tokenScoreOf
    rw [hT, hS]
  have h2 : exactBonusOf q (mergeResults a b) = exactBonusOf q a := by
    unfold exactBonusOf
    rw [hT]
  have h3 : multiBonusOf (mergeResults a b) = 15 := by
    unfold multiBonusOf
    rw [hSrc]
    rw [if_pos (by simp)]
    rw [splitOnChar_append, splitOnChar_of_not_mem _ _ ha, splitOnChar_of_not_mem _ _ hb]
    norm_num
  have h4 : multiBonusOf a = 0 := by simp [multiBonusOf, ha]
  have h5 : nativeBonusOf (mergeResults a b) = nativeBonusOf a := by
    rw [nativeBonusOf, hN]
    cases hq : a.score with
    | none => simp [nativeBonusOf, hq, jsNumOr0]
    | some s => simp [nativeBonusOf, hq, jsNumOr0]
  have h6 : dateBonusOf (mergeResults a b) = dateBonusOf a := by
    rw [dateBonusOf, hD]
    cases hq : a.publishedDate with
    | none => simp [dateBonusOf, jsOrStr, hq]
    | some d =>
      by_cases hd0 : d = "" <;> simp [dateBonusOf, jsOrStr, hq, hd0]
  have h7 : snippetBonusOf (mergeResults a b) = snippetBonusOf a := by
    unfold snippetBonusOf
    rw [hS]
  rw [scoreOf, scoreOf, h1, h2, h3, h4, h5, h6, h7]
  ring

theorem multi_source_bonus_witness :
    scoreOf "q"
      (mergeResults
        { title := "T", url := "u1", snippet := "s", source := "Exa" }
        { title := "T", url := "u2", snippet := "s", source := "Tavily" }) =
      scoreOf "q" { title := "T", url := "u1", snippet := "s", source := "Exa" } + 15 :=
  multi_source_bonus "q"
    { title := "T", url := "u1", snippet := "s", source := "Exa" }
    { title := "T", url := "u2", snippet := "s", source := "Tavily" }
    rfl rfl rfl rfl (by decide) (by decide)

theorem findEntry_updateEntry (k0 k : String) (r : SearchResult)
    (acc : List (String × SearchResult)) :
    findEntry k (updateEntry k0 r acc) =
      if k0 = k then (findEntry k acc).map (fun e => mergeResults e r)
      else findEntry k acc := by
  induction acc with
  | nil => by_cases h : k0 = k <;> simp [updateEntry, findEntry, h]
  | cons e es ih =>
    by_cases h1 : e.1 = k0
    · by_cases h2 : k0 = k
      · simp [updateEntry, findEntry, h1, h2, h1.trans h2]
      · have h3 : e.1 ≠ k := fun hc => h2 (h1.symm.trans hc)
        simp [updateEntry, findEntry, h1, h2, h3]
    · by_cases h3 : e.1 = k
      · by_cases h2 : k0 = k
        · exact absurd (h3.trans h2.symm) h1
        · have h2' : k ≠ k0 := fun hc => h2 hc.symm
          simp [updateEntry, findEntry, h1, h2, h2', h3]
      · simp [updateEntry, findEntry, h1, h3, ih]

theorem findEntry_append_single (k k0 : String) (r : SearchResult)
    (acc : List (String × SearchResult)) :
    findEntry k (acc ++ [(k0, r)]) =
      match findEntry k acc with
      | some e => some e
      | none => if k0 = k then some r else none := by
  induction acc with
  | nil => simp [findEntry]
  | cons e es ih =>
    by_cases h : e.1 = k <;> simp [findEntry, h, ih]

theorem findEntry_dedupInsert (parse : ParseURL) (acc : List (String × SearchResult))
    (r : SearchResult) (k : String) :
    findEntry k (dedupInsert parse acc r) =
      if normalizeUrl parse r.url = k then mergeStep (findEntry k acc) r
      else findEntry k acc := by
  unfold dedupInsert
  cases hf : findEntry (normalizeUrl parse r.url) acc with
  | some e =>
    rw [findEntry_updateEntry]
    by_cases h : normalizeUrl parse r.url = k
    · have hf' : findEntry k acc = some e := by rw [← h]; exact hf
      rw [if_pos h, if_pos h, hf']
      rfl
    · rw [if_neg h, if_neg h]
  | none =>
    rw [findEntry_append_single]
    by_cases h : normalizeUrl parse r.url = k
    · have hf' : findEntry k acc = none := by rw [← h]; exact hf
      simp [hf', h, mergeStep]
    · rw [if_neg h]
      cases hq : findEntry k acc <;> simp [h, hq]

theorem foldl_dedupInsert_findEntry (parse : ParseURL) (l : List SearchResult) :
    ∀ (acc : List (String × SearchResult)) (k : String),
      findEntry k (l.foldl (dedupInsert parse) acc) =
        (l.filter (fun r => decide (normalizeUrl parse r.url = k))).foldl mergeStep
          (findEntry k acc) := by
  induction l with
  | nil => intro acc k; rfl
  | cons r l ih =>
    intro acc k
    rw [List.foldl_cons, ih, List.filter_cons]
    by_cases h : normalizeUrl parse r.url = k
    · rw [if_pos (by simpa using h), List.foldl_cons, findEntry_dedupInsert, if_pos h]
    · rw [if_neg (by simpa using h), findEntry_dedupInsert, if_neg h]

theorem foldl_mergeStep_some (rs : List SearchResult) :
    ∀ a : SearchResult, rs.foldl mergeStep (some a) = some (rs.foldl mergeResults a) := by
  induction rs with
  | nil => intro a; rfl
  | cons r rs ih => intro a; rw [List.foldl_cons, List.foldl_cons]; exact ih _

theorem foldl_merge_source (rs : List SearchResult) :
    ∀ a : SearchResult,
      (rs.foldl mergeResults a).source =
        (rs.map (fun r => r.source)).foldl (fun acc t => acc ++ "+" ++ t) a.source := by
  induction rs with
  | nil => intro a; rfl
  | cons r rs ih =>
    intro a
    rw [List.foldl_cons, List.map_cons, List.foldl_cons, ih]
    rfl

/-- C4 counterexample: two raw results from the same provider sharing one
normalized URL merge into a canonical result whose source is `"ddg+ddg"` —
the single distinct contributing name `"ddg"` appears twice, not once. -/
theorem dedup_source_duplicate_names :
    ((deduplicateByUrl (fun _ => none)
        [{ title := "t", url := "u", snippet := "", source := "ddg" },
          { title := "t", url := "u", snippet := "", source := "ddg" }]).map
      (fun r => r.source)) = ["ddg+ddg"]
    ∧ ("ddg+ddg" : String) ≠ "ddg" := by
  refine ⟨by decide, by decide⟩

/-- C4 amended: for every group of raw results sharing one normalized URL,
the canonical result's source is the `+`-separated concatenation of the
contributing provider names in processing order, with one entry per merged
raw result — so a provider's name repeats when it contributes several
results to the group. -/
theorem dedup_source_concat (parse : ParseURL) (l : List SearchResult) (k : String)
    (c : SearchResult) (h : findEntry k (dedupEntries parse l) = some c) :
    c.source =
      plusJoin ((l.filter (fun r => decide (normalizeUrl parse r.url = k))).map
        (fun r => r.source)) := by
  unfold dedupEntries at h
  rw [foldl_dedupInsert_findEntry] at h
  cases hg : l.filter (fun r => decide (normalizeUrl parse r.url = k)) with
  | nil =>
    rw [hg] at h
    exact absurd h (by simp [findEntry])
  | cons g gs =>
    rw [hg, List.foldl_cons] at h
    have hstep : mergeStep (findEntry k ([] : List (String × SearchResult))) g = some g := rfl
    rw [hstep, foldl_mergeStep_some] at h
    have hc : c = gs.foldl mergeResults g := (Option.some.injEq _ _ ▸ h).symm
    rw [hc, foldl_merge_source, List.map_cons]
    rfl

theorem dedup_source_concat_witness :
    ({ title := "t", url := "u", snippet := "", source := "A+B",
        publishedDate := none, score := some 0, relevanceScore := none } : SearchResult).source =
      plusJoin ((([{ title := "t", url := "u", snippet := "", source := "A" },
          { title := "t", url := "u", snippet := "", source := "B" }] : List SearchResult).filter
            (fun r => decide (normalizeUrl (fun _ => none) r.url = "u"))).map
        (fun r => r.source)) :=
  dedup_source_concat (fun _ => none)
    ([{ title := "t", url := "u", snippet := "", source := "A" },
      { title := "t", url := "u", snippet := "", source := "B" }] : List SearchResult) "u"
    { title := "t", url := "u", snippet := "", source := "A+B",
      publishedDate := none, score := some 0, relevanceScore := none }
    (by decide)

theorem dropWww_no_slash (h : String) (hh : '/' ∉ h.data) : '/' ∉ (dropWww h).data := by
  unfold dropWww
  split_ifs with hp
  · intro hm
    exact hh (List.mem_of_mem_drop hm)
  · exact hh

theorem stripTrailingSlash_append_right (h p : String) (hh : '/' ∉ h.data) :
    stripTrailingSlash (h ++ p) = h ++ stripTrailingSlash p := by
  unfold stripTrailingSlash
  by_cases hp : p.data = []
  · have h1 : (h ++ p).data.getLast? ≠ some '/' := by
      intro hc
      rw [String.data_append, hp, List.append_nil] at hc
      exact hh (List.mem_of_getLast?_eq_some hc)
    rw [if_neg h1, if_neg (by rw [hp]; intro hc; exact nomatch hc)]
  · have h1 : (h ++ p).data.getLast? = p.data.getLast? := by
      rw [String.data_append, List.getLast?_append]
      cases hg : p.data.getLast? with
      | none => exact absurd (List.getLast?_eq_none_iff.mp hg) hp
      | some c => rfl
    rw [h1]
    by_cases h2 : p.data.getLast? = some '/'
    · rw [if_pos h2, if_pos h2]
      apply String.ext
      rw [String.data_append, String.data_append]
      exact List.dropLast_append_of_ne_nil _ hp
    · rw [if_neg h2, if_neg h2]

/-- C6: on a successful parse (whose host, as produced by a real URL parser,
contains no slash), the deduplication key is the host minus a leading
`www.`, concatenated with the path minus a trailing slash, lower-cased; the
key depends only on host and path, so scheme, port, query and fragment are
dropped; an unparsable URL's key is the string itself lower-cased; and two
raw results end up merged into one canonical result iff their keys are
equal. -/
theorem normalizeUrl_key_spec (parse : ParseURL) :
    (∀ url rec, parse url = some rec → '/' ∉ rec.host.data →
        normalizeUrl parse url = strLower (dropWww rec.host ++ stripTrailingSlash rec.path))
    ∧ (∀ url, parse url = none → normalizeUrl parse url = strLower url)
    ∧ (∀ url url' rec rec', parse url = some rec → parse url' = some rec' →
        rec.host = rec'.host → rec.path = rec'.path →
        normalizeUrl parse url = normalizeUrl parse url')
    ∧ (∀ a b : SearchResult,
        (deduplicateByUrl parse [a, b]).length = 1 ↔
          normalizeUrl parse a.url = normalizeUrl parse b.url) := by
  refine ⟨?_, ?_, ?_, ?_⟩
  · intro url rec hp hslash
    simp only [normalizeUrl, hp]
    rw [stripTrailingSlash_append_right _ _ (dropWww_no_slash _ hslash)]
  · intro url hp
    simp only [normalizeUrl, hp]
  · intro url url' rec rec' hp hp' hh hpath
    simp only [normalizeUrl, hp, hp']
    rw [hh, hpath]
  · intro a b
    by_cases h : normalizeUrl parse a.url = normalizeUrl parse b.url
    · simp [deduplicateByUrl, dedupEntries, dedupInsert, findEntry, updateEntry, h]
    · have h' : normalizeUrl parse b.url ≠ normalizeUrl parse a.url := fun hc => h hc.symm
      simp [deduplicateByUrl, dedupEntries, dedupInsert, findEntry, updateEntry, h, h']

theorem normalizeUrl_key_spec_witness :
    normalizeUrl
        (fun u => if u = "https://www.example.com/Path/" then
          some { scheme := "https", host := "www.example.com", path := "/Path/" }
        else none)
        "https://www.example.com/Path/" =
      strLower (dropWww "www.example.com" ++ stripTrailingSlash "/Path/") :=
  (normalizeUrl_key_spec
      (fun u => if u = "https://www.example.com/Path/" then
        some { scheme := "https", host := "www.example.com", path := "/Path/" }
      else none)).1
    "https://www.example.com/Path/"
    { scheme := "https", host := "www.example.com", path := "/Path/" }
    (by decide) (by decide)

theorem sortLe_trans (a b c : SearchResult) (h1 : decide (rScore b ≤ rScore a) = true)
    (h2 : decide (rScore c ≤ rScore b) = true) : decide (rScore c ≤ rScore a) = true := by
  simp only [decide_eq_true_eq] at h1 h2 ⊢
  omega

theorem sortLe_total (a b : SearchResult) :
    (decide (rScore b ≤ rScore a) || decide (rScore a ≤ rScore b)) = true := by
  by_cases h : rScore b ≤ rScore a
  · simp [h]
  · simp only [decide_eq_true_eq, Bool.or_eq_true]
    omega

theorem sortByScoreDesc_sorted (l : List SearchResult) :
    (sortByScoreDesc l).Pairwise (fun x y => rScore y ≤ rScore x) := by
  unfold sortByScoreDesc
  have h := List.sorted_mergeSort sortLe_trans sortLe_total l
  exact h.imp (fun hab => by simpa using hab)

theorem sortByScoreDesc_stable (l : List SearchResult) (c : Int) :
    (sortByScoreDesc l).filter (fun r => decide (rScore r = c)) =
      l.filter (fun r => decide (rScore r = c)) := by
  unfold sortByScoreDesc
  have hmem : ∀ r ∈ l.filter (fun r => decide (rScore r = c)), rScore r = c :=
    fun r hr => by simpa using (List.mem_filter.mp hr).2
  have hpw : (l.filter (fun r => decide (rScore r = c))).Pairwise
      (fun a b => decide (rScore b ≤ rScore a) = true) := by
    apply List.pairwise_of_forall_mem_list
    intro a ha b hb
    have h1 := hmem a ha
    have h2 := hmem b hb
    simp [h1, h2]
  have h1 : List.Sublist (l.filter (fun r => decide (rScore r = c)))
      (List.mergeSort l (fun a b => decide (rScore b ≤ rScore a))) :=
    List.sublist_mergeSort sortLe_trans sortLe_total hpw (List.filter_sublist l)
  have h2 := h1.filter (fun r => decide (rScore r = c))
  have h3 : (l.filter (fun r => decide (rScore r = c))).filter
      (fun r => decide (rScore r = c)) = l.filter (fun r => decide (rScore r = c)) :=
    List.filter_eq_self.mpr (fun a ha => (List.mem_filter.mp ha).2)
  rw [h3] at h2
  have h4 : ((List.mergeSort l (fun a b => decide (rScore b ≤ rScore a))).filter
      (fun r => decide (rScore r = c))).length =
      (l.filter (fun r => decide (rScore r = c))).length :=
    ((List.mergeSort_perm l (fun a b => decide (rScore b ≤ rScore a))).filter
      (fun r => decide (rScore r = c))).length_eq
  exact (h2.eq_of_length h4.symm).symm

/-- C8: `aggregate` returns the first N elements of the scored, deduplicated
list sorted by descending relevance score, the sort is descending
(pairwise ≥ on the `relevanceScore || 0` key), and it is stable: for every
score value, the results carrying that score appear in the same relative
order as the deduplication step produced them. -/
theorem aggregate_ranking (parse : ParseURL) (N : Nat) (q : String)
    (responses : List EngineResponse) :
    ((SearchAggregator.aggregate parse N q responses).results =
      (sortByScoreDesc (calculateRelevance
        (deduplicateByUrl parse ((responses.map (fun r => r.results)).flatten)) q)).take N)
    ∧ (sortByScoreDesc (calculateRelevance
        (deduplicateByUrl parse ((responses.map (fun r => r.results)).flatten)) q)).Pairwise
        (fun x y => rScore y ≤ rScore x)
    ∧ ∀ c : Int,
        (sortByScoreDesc (calculateRelevance
          (deduplicateByUrl parse ((responses.map (fun r => r.results)).flatten)) q)).filter
            (fun r => decide (rScore r = c)) =
          (calculateRelevance
            (deduplicateByUrl parse ((responses.map (fun r => r.results)).flatten)) q).filter
            (fun r => decide (rScore r = c)) :=
  ⟨rfl, sortByScoreDesc_sorted _, fun c => sortByScoreDesc_stable _ c⟩

end USearch
